import Mathlib

/-!
Verification of the key-pool / request-pipeline proxy.

The definitions below are a shallow embedding of the TypeScript source:
times are `Int` milliseconds, JavaScript objects become structures,
thrown errors become `Option`/`none`, and in-place mutation of the
provider's key array becomes explicit list transformation.
-/

namespace NightOfNights

/-- Byte-wise model of JS `String.prototype.startsWith` (first argument is the
receiver, second the search string). -/
def charsStart : List Char → List Char → Bool
  | [], _ => true
  | _ :: _, [] => false
  | p :: ps, c :: cs => p == c && charsStart ps cs

def jsStartsWith (s pat : String) : Bool := charsStart pat.data s.data

/-- Whitespace stripped by JS `String.prototype.trim` (ASCII fragment; the
full JS definition also strips Unicode space separators, which no input in
this development contains). -/
def isJsSpace (c : Char) : Bool :=
  c == ' ' || c == '\t' || c == '\n' || c == '\r' || c == '\x0b' || c == '\x0c'

/-- Model of JS `String.prototype.trim`. -/
def jsTrim (s : String) : String :=
  ⟨((s.data.dropWhile isJsSpace).reverse.dropWhile isJsSpace).reverse⟩

/-- Split a character list on a separator character (used to model JS
`String.prototype.split`). -/
def splitOnChar (sep : Char) (cs : List Char) : List (List Char) :=
  cs.foldr
    (fun c acc =>
      match acc with
      | [] => [[c]]
      | a :: as => if c == sep then [] :: a :: as else (c :: a) :: as)
    [[]]

/-- `nth l i` is the `i`-th element of `l` (a self-contained model of JS
array indexing; `none` plays the role of `undefined`). -/
def nth {α : Type} : List α → Nat → Option α
  | [], _ => none
  | a :: _, 0 => some a
  | _ :: l, n + 1 => nth l n

/-- Apply `f` to the first element of `l` satisfying `p`, leaving the rest
unchanged.  This models the source pattern
`const k = this.keys.find(...); mutate(k)`. -/
def updateFirst {α : Type} (p : α → Bool) (f : α → α) : List α → List α
  | [] => []
  | a :: l => if p a then f a :: l else a :: updateFirst p f l

/-- Deduplicate keeping first occurrences, as `[...new Set(xs)]` does. -/
def dedupFirst : List String → List String
  | [] => []
  | s :: rest => s :: dedupFirst (rest.filter (fun t => !(t == s)))
termination_by l => l.length
decreasing_by
  simp only [List.length_cons]
  exact Nat.lt_succ_of_le (List.length_filter_le _ _)

section ListLemmas

variable {α : Type}

theorem nth_mem {l : List α} {i : Nat} {a : α} (h : nth l i = some a) : a ∈ l := by
  induction l generalizing i with
  | nil => simp [nth] at h
  | cons b l ih =>
    cases i with
    | zero => simp [nth] at h; simp [h]
    | succ n => exact List.mem_cons_of_mem _ (ih h)

theorem mem_nth {l : List α} {a : α} (h : a ∈ l) : ∃ i, nth l i = some a := by
  induction l with
  | nil => simp at h
  | cons b l ih =>
    rcases List.mem_cons.mp h with h | h
    · exact ⟨0, by simp [nth, h]⟩
    · obtain ⟨i, hi⟩ := ih h
      exact ⟨i + 1, by simp [nth, hi]⟩

theorem nth_lt_length {l : List α} {i : Nat} (h : i < l.length) : ∃ a, nth l i = some a := by
  induction l generalizing i with
  | nil => simp at h
  | cons b l ih =>
    cases i with
    | zero => exact ⟨b, rfl⟩
    | succ n => exact ih (by simpa using h)

theorem nth_length_le {l : List α} {i : Nat} (h : l.length ≤ i) : nth l i = none := by
  induction l generalizing i with
  | nil => rfl
  | cons b l ih =>
    cases i with
    | zero => simp at h
    | succ n => exact ih (by simpa using h)

theorem nth_set_self {l : List α} {i : Nat} {a : α} (h : i < l.length) :
    nth (l.set i a) i = some a := by
  induction l generalizing i with
  | nil => simp at h
  | cons b l ih =>
    cases i with
    | zero => rfl
    | succ n => exact ih (by simpa using h)

theorem nth_set_ne {l : List α} {i j : Nat} {a : α} (h : j ≠ i) :
    nth (l.set i a) j = nth l j := by
  induction l generalizing i j with
  | nil => simp [List.set]
  | cons b l ih =>
    cases i with
    | zero =>
      cases j with
      | zero => exact absurd rfl h
      | succ m => rfl
    | succ n =>
      cases j with
      | zero => rfl
      | succ m => exact ih (by omega)

theorem set_set_same {l : List α} {i : Nat} {a b : α} :
    (l.set i a).set i b = l.set i b := by
  induction l generalizing i with
  | nil => rfl
  | cons c l ih =>
    cases i with
    | zero => rfl
    | succ n => simp [List.set, ih]

theorem length_set {l : List α} {i : Nat} {a : α} : (l.set i a).length = l.length := by
  simp

theorem mem_updateFirst {p : α → Bool} {f : α → α} :
    ∀ {l : List α} {a : α}, a ∈ updateFirst p f l → a ∈ l ∨ ∃ x, x ∈ l ∧ a = f x := by
  intro l
  induction l with
  | nil => intro a h; simp [updateFirst] at h
  | cons b l ih =>
    intro a h
    by_cases hb : p b
    · simp [updateFirst, hb] at h
      rcases h with h | h
      · exact Or.inr ⟨b, by simp, h⟩
      · exact Or.inl (List.mem_cons_of_mem _ h)
    · simp [updateFirst, hb] at h
      rcases h with h | h
      · exact Or.inl (by simp [h])
      · rcases ih h with h | ⟨x, hx, hfx⟩
        · exact Or.inl (List.mem_cons_of_mem _ h)
        · exact Or.inr ⟨x, List.mem_cons_of_mem _ hx, hfx⟩

theorem nth_updateFirst {p : α → Bool} {f : α → α} :
    ∀ {l : List α} {n : Nat},
      nth (updateFirst p f l) n = nth l n ∨
      ∃ x, nth l n = some x ∧ nth (updateFirst p f l) n = some (f x) := by
  intro l
  induction l with
  | nil => intro n; left; rfl
  | cons b l ih =>
    intro n
    by_cases hb : p b
    · cases n with
      | zero => exact Or.inr ⟨b, rfl, by simp [updateFirst, hb, nth]⟩
      | succ m => left; simp [updateFirst, hb, nth]
    · cases n with
      | zero => left; simp [updateFirst, hb, nth]
      | succ m =>
        rcases @ih m with h | ⟨x, hx, hfx⟩
        · left; simpa [updateFirst, hb, nth] using h
        · exact Or.inr ⟨x, hx, by simpa [updateFirst, hb, nth] using hfx⟩

theorem updateFirst_eq_set {p : α → Bool} {f : α → α} :
    ∀ {l : List α} {i : Nat} {x : α},
      nth l i = some x → p x = true →
      (∀ j y, j < i → nth l j = some y → p y = false) →
      updateFirst p f l = l.set i (f x) := by
  intro l
  induction l with
  | nil => intro i x hx; simp [nth] at hx
  | cons b l ih =>
    intro i x hx hp hfirst
    cases i with
    | zero =>
      simp [nth] at hx
      subst hx
      simp [updateFirst, hp, List.set]
    | succ n =>
      have hb : p b = false := hfirst 0 b (Nat.succ_pos n) rfl
      simp [updateFirst, hb, List.set]
      exact ih hx hp (fun j y hj hy => hfirst (j + 1) y (by omega) hy)

theorem find?_at_first {p : α → Bool} :
    ∀ {l : List α} {i : Nat} {x : α},
      nth l i = some x → p x = true →
      (∀ j y, j < i → nth l j = some y → p y = false) →
      l.find? p = some x := by
  intro l
  induction l with
  | nil => intro i x hx; simp [nth] at hx
  | cons b l ih =>
    intro i x hx hp hfirst
    cases i with
    | zero =>
      simp [nth] at hx
      subst hx
      simp [List.find?, hp]
    | succ n =>
      have hb : p b = false := hfirst 0 b (Nat.succ_pos n) rfl
      simp [List.find?, hb]
      exact ih hx hp (fun j y hj hy => hfirst (j + 1) y (by omega) hy)

theorem nodup_nth_ne {l : List α} (hnd : l.Nodup) :
    ∀ {i j : Nat} {a b : α}, i ≠ j → nth l i = some a → nth l j = some b → a ≠ b := by
  induction l with
  | nil => intro i j a b _ h; simp [nth] at h
  | cons c l ih =>
    intro i j a b hij ha hb
    rcases List.nodup_cons.mp hnd with ⟨hc, hl⟩
    cases i with
    | zero =>
      cases j with
      | zero => exact absurd rfl hij
      | succ m =>
        simp [nth] at ha
        subst ha
        intro hab
        exact hc (hab ▸ nth_mem hb)
    | succ n =>
      cases j with
      | zero =>
        simp [nth] at hb
        subst hb
        intro hab
        exact hc (hab ▸ nth_mem ha)
      | succ m => exact ih hl (by omega) ha hb

theorem nth_map {β : Type} (f : α → β) :
    ∀ (l : List α) (i : Nat), nth (l.map f) i = (nth l i).map f := by
  intro l
  induction l with
  | nil => intro i; rfl
  | cons b l ih =>
    intro i
    cases i with
    | zero => rfl
    | succ n => simpa [nth] using ih n

end ListLemmas

/-! ## Google AI key provider (src/unnamed/part_001, `GoogleAIKeyProvider`) -/

/-- Capability tags of Google AI keys (`GoogleAIModelFamily`). -/
inductive GoogleAIModelFamily : Type
  | geminiPro
  | geminiFlash
  | geminiUltra
  deriving DecidableEq, Repr

/-- One key record of the Google AI provider (`GoogleAIKey`).  Times are
milliseconds as in the source. -/
structure GoogleAIKey : Type where
  key : String
  hash : String
  isDisabled : Bool
  isRevoked : Bool
  promptCount : Nat
  lastUsed : Int
  rateLimitedAt : Int
  rateLimitedUntil : Int
  lastChecked : Int
  modelFamilies : List GoogleAIModelFamily
  geminiProTokens : Int
  geminiFlashTokens : Int
  geminiUltraTokens : Int
  modelIds : List String
  deriving DecidableEq, Repr

instance : Inhabited GoogleAIKey :=
  ⟨{ key := "", hash := "", isDisabled := false, isRevoked := false,
     promptCount := 0, lastUsed := 0, rateLimitedAt := 0, rateLimitedUntil := 0,
     lastChecked := 0, modelFamilies := [], geminiProTokens := 0,
     geminiFlashTokens := 0, geminiUltraTokens := 0, modelIds := [] }⟩

/-- `RATE_LIMIT_LOCKOUT` (milliseconds a key is locked out after a 429). -/
def RATE_LIMIT_LOCKOUT : Int := 2000

/-- `KEY_REUSE_DELAY` (milliseconds a key is throttled after being assigned). -/
def KEY_REUSE_DELAY : Int := 500

/-- The key record created for one bare key string in the provider
constructor.  The SHA-256 fingerprint computed with node `crypto` is outside
the embedded language, so the hex digest is a parameter `hashFn`. -/
def mkGoogleAIKey (hashFn : String → String) (key : String) : GoogleAIKey :=
  { key := key
    hash := "plm-" ++ hashFn key
    isDisabled := false
    isRevoked := false
    promptCount := 0
    lastUsed := 0
    rateLimitedAt := 0
    rateLimitedUntil := 0
    lastChecked := 0
    modelFamilies := [GoogleAIModelFamily.geminiPro]
    geminiProTokens := 0
    geminiFlashTokens := 0
    geminiUltraTokens := 0
    modelIds := [] }

/-- The `GoogleAIKeyProvider` constructor: trim the configured secret list,
bail out when it is missing or empty, split on commas, trim each entry,
deduplicate keeping first occurrences, and build one record per secret. -/
def mkGoogleAIKeys (hashFn : String → String) (googleAIKeyConfig : Option String) :
    List GoogleAIKey :=
  match googleAIKeyConfig with
  | none => []
  | some cfg =>
    let trimmed := jsTrim cfg
    if trimmed = "" then []
    else
      (dedupFirst ((splitOnChar ',' trimmed.data).map (fun cs => jsTrim ⟨cs⟩))).map
        (mkGoogleAIKey hashFn)

/-- `!k.isDisabled && k.modelFamilies.includes(neededFamily)` — the filter in
`GoogleAIKeyProvider.get`. -/
def isEligible (fam : GoogleAIModelFamily) (k : GoogleAIKey) : Bool :=
  !k.isDisabled && k.modelFamilies.contains fam

/-- `now - k.rateLimitedAt < RATE_LIMIT_LOCKOUT` — whether `get` treats the
key as currently rate limited. -/
def isKeyRateLimited (now : Int) (k : GoogleAIKey) : Bool :=
  decide (now - k.rateLimitedAt < RATE_LIMIT_LOCKOUT)

/-- The comparator passed to `availableKeys.sort` in
`GoogleAIKeyProvider.get` (negative means `a` sorts before `b`). -/
def compareKeys (now : Int) (a b : GoogleAIKey) : Int :=
  let aRateLimited := isKeyRateLimited now a
  let bRateLimited := isKeyRateLimited now b
  if aRateLimited && !bRateLimited then 1
  else if !aRateLimited && bRateLimited then -1
  else if aRateLimited && bRateLimited then a.rateLimitedAt - b.rateLimitedAt
  else a.lastUsed - b.lastUsed

/-- Element of `keys` at position `i` (the provider array is never indexed
out of range on the paths we model). -/
def keyAt (keys : List GoogleAIKey) (i : Nat) : GoogleAIKey :=
  (nth keys i).getD default

/-- Positions of the eligible keys of the pool, in pool order. -/
def eligIdxs (fam : GoogleAIModelFamily) (keys : List GoogleAIKey) : List Nat :=
  (List.range keys.length).filter (fun i => isEligible fam (keyAt keys i))

/-- One comparison step of the selection: keep the incumbent `b` unless the
candidate `c` sorts strictly before it.  Because the comparator is a total
preorder and JS `Array.prototype.sort` is stable, the head of the sorted
array is exactly the first position attaining the comparator minimum, which
is what folding this step computes. -/
def betterIdx (now : Int) (keys : List GoogleAIKey) (b c : Nat) : Nat :=
  if compareKeys now (keyAt keys c) (keyAt keys b) < 0 then c else b

/-- Position (in the provider's key array) of the key `keysByPriority[0]`
selected by `GoogleAIKeyProvider.get`; `none` when no key is eligible. -/
def bestIdx (fam : GoogleAIModelFamily) (now : Int) (keys : List GoogleAIKey) :
    Option Nat :=
  match eligIdxs fam keys with
  | [] => none
  | i :: is => some (is.foldl (betterIdx now keys) i)

/-- `GoogleAIKeyProvider.throttle` applied to one record: arm the reuse
delay. -/
def throttleKey (now : Int) (k : GoogleAIKey) : GoogleAIKey :=
  { k with rateLimitedAt := now,
           rateLimitedUntil := max k.rateLimitedUntil (now + KEY_REUSE_DELAY) }

/-- `GoogleAIKeyProvider.get(model)` with the family `neededFamily` already
computed from the model.  `none` models the thrown
`PaymentRequiredError("No Google AI keys available")` (the 402-style
NoKeysAvailable failure).  On success it returns the copy of the selected
record handed to the caller together with the provider's key array after the
in-place mutations (`lastUsed = now` on the selected record, then
`throttle`, which looks the record up again by hash). -/
def getStep (fam : GoogleAIModelFamily) (now : Int) (keys : List GoogleAIKey) :
    Option (GoogleAIKey × List GoogleAIKey) :=
  match bestIdx fam now keys with
  | none => none
  | some i =>
    let sel := keyAt keys i
    let keys1 := keys.set i { sel with lastUsed := now }
    let keys2 := updateFirst (fun k => k.hash == sel.hash) (throttleKey now) keys1
    some (keyAt keys2 i, keys2)

/-- `GoogleAIKeyProvider.markRateLimited`. -/
def markRateLimited (now : Int) (keyHash : String) (keys : List GoogleAIKey) :
    List GoogleAIKey :=
  updateFirst (fun k => k.hash == keyHash)
    (fun k => { k with rateLimitedAt := now,
                       rateLimitedUntil := now + RATE_LIMIT_LOCKOUT }) keys

/-- `GoogleAIKeyProvider.disable`. -/
def disableKey (keyHash : String) (keys : List GoogleAIKey) : List GoogleAIKey :=
  updateFirst (fun k => k.hash == keyHash)
    (fun k => { k with isDisabled := true }) keys

/-- The patch accepted by `GoogleAIKeyProvider.update` (the exported
`GoogleAIKeyUpdate` type, which omits `key`, `hash`, `lastUsed`,
`promptCount`, `rateLimitedAt` and `rateLimitedUntil`); `none` fields are
absent from the patch object. -/
structure GoogleAIKeyUpdate : Type where
  isDisabled : Option Bool := none
  isRevoked : Option Bool := none
  lastChecked : Option Int := none
  modelFamilies : Option (List GoogleAIModelFamily) := none
  geminiProTokens : Option Int := none
  geminiFlashTokens : Option Int := none
  geminiUltraTokens : Option Int := none
  modelIds : Option (List String) := none

/-- `Object.assign(keyFromPool, { lastChecked: Date.now(), ...update })`. -/
def applyKeyUpdate (now : Int) (u : GoogleAIKeyUpdate) (k : GoogleAIKey) :
    GoogleAIKey :=
  { k with
    lastChecked := u.lastChecked.getD now
    isDisabled := u.isDisabled.getD k.isDisabled
    isRevoked := u.isRevoked.getD k.isRevoked
    modelFamilies := u.modelFamilies.getD k.modelFamilies
    geminiProTokens := u.geminiProTokens.getD k.geminiProTokens
    geminiFlashTokens := u.geminiFlashTokens.getD k.geminiFlashTokens
    geminiUltraTokens := u.geminiUltraTokens.getD k.geminiUltraTokens
    modelIds := u.modelIds.getD k.modelIds }

/-- `GoogleAIKeyProvider.update`. -/
def updateKey (now : Int) (keyHash : String) (u : GoogleAIKeyUpdate)
    (keys : List GoogleAIKey) : List GoogleAIKey :=
  updateFirst (fun k => k.hash == keyHash) (applyKeyUpdate now u) keys

/-- Token-counter bump of `incrementUsage` for one family. -/
def addFamTokens (fam : GoogleAIModelFamily) (tokens : Int) (k : GoogleAIKey) :
    GoogleAIKey :=
  match fam with
  | GoogleAIModelFamily.geminiPro =>
      { k with geminiProTokens := k.geminiProTokens + tokens }
  | GoogleAIModelFamily.geminiFlash =>
      { k with geminiFlashTokens := k.geminiFlashTokens + tokens }
  | GoogleAIModelFamily.geminiUltra =>
      { k with geminiUltraTokens := k.geminiUltraTokens + tokens }

/-- `GoogleAIKeyProvider.incrementUsage` (family already computed from the
model). -/
def incrementUsage (keyHash : String) (fam : GoogleAIModelFamily) (tokens : Int)
    (keys : List GoogleAIKey) : List GoogleAIKey :=
  updateFirst (fun k => k.hash == keyHash)
    (fun k => addFamTokens fam tokens { k with promptCount := k.promptCount + 1 })
    keys

/-- `GoogleAIKeyProvider.getLockoutPeriod` — note that the source ignores its
`model` argument entirely: the active set is every non-disabled key,
regardless of model family. -/
def getLockoutPeriod (now : Int) (keys : List GoogleAIKey) : Int :=
  let active := keys.filter (fun k => !k.isDisabled)
  if active.length = 0 then 0
  else
    let rateLimited := active.filter (fun k => decide (now < k.rateLimitedUntil))
    if rateLimited.length < active.length then 0
    else
      match active.map (fun k => k.rateLimitedUntil - now) with
      | [] => 0
      | x :: xs => xs.foldl min x

/-! ### Lemmas about the selection comparator -/

theorem compareKeys_eval (now : Int) (a b : GoogleAIKey) :
    compareKeys now a b =
      if now - a.rateLimitedAt < RATE_LIMIT_LOCKOUT then
        if now - b.rateLimitedAt < RATE_LIMIT_LOCKOUT then
          a.rateLimitedAt - b.rateLimitedAt
        else 1
      else
        if now - b.rateLimitedAt < RATE_LIMIT_LOCKOUT then -1
        else a.lastUsed - b.lastUsed := by
  simp only [compareKeys, isKeyRateLimited]
  by_cases ha : now - a.rateLimitedAt < RATE_LIMIT_LOCKOUT <;>
    by_cases hb : now - b.rateLimitedAt < RATE_LIMIT_LOCKOUT <;>
      simp [ha, hb]

theorem compareKeys_self (now : Int) (a : GoogleAIKey) :
    compareKeys now a a = 0 := by
  rw [compareKeys_eval]
  split_ifs <;> omega

theorem compareKeys_antisymm (now : Int) (a b : GoogleAIKey) :
    compareKeys now a b = -compareKeys now b a := by
  rw [compareKeys_eval, compareKeys_eval]
  split_ifs <;> omega

theorem compareKeys_trans_le (now : Int) (a b c : GoogleAIKey)
    (hab : compareKeys now a b ≤ 0) (hbc : compareKeys now b c ≤ 0) :
    compareKeys now a c ≤ 0 := by
  rw [compareKeys_eval] at hab hbc ⊢
  split_ifs at hab hbc ⊢ <;> omega

/-! ### Lemmas about the fold that models the stable sort's head -/

theorem foldl_better_mem (now : Int) (keys : List GoogleAIKey) (i : Nat)
    (is : List Nat) : is.foldl (betterIdx now keys) i ∈ i :: is := by
  induction is generalizing i with
  | nil => simp
  | cons c is ih =>
    simp only [List.foldl_cons]
    have h := ih (betterIdx now keys i c)
    rcases List.mem_cons.mp h with h | h
    · rw [h]
      unfold betterIdx
      split
      · simp
      · simp
    · simp [h]

theorem foldl_better_min (now : Int) (keys : List GoogleAIKey) (i : Nat)
    (is : List Nat) :
    ∀ j ∈ i :: is,
      compareKeys now (keyAt keys (is.foldl (betterIdx now keys) i))
        (keyAt keys j) ≤ 0 := by
  induction is generalizing i with
  | nil =>
    intro j hj
    simp at hj
    subst hj
    simp [compareKeys_self]
  | cons c is ih =>
    intro j hj
    simp only [List.foldl_cons]
    by_cases hlt : compareKeys now (keyAt keys c) (keyAt keys i) < 0
    · have hb : betterIdx now keys i c = c := by simp [betterIdx, hlt]
      rw [hb]
      have hhead := ih c c (List.mem_cons_self c is)
      rcases List.mem_cons.mp hj with hj | hj
      · subst hj
        exact compareKeys_trans_le now _ _ _ hhead (le_of_lt hlt)
      · rcases List.mem_cons.mp hj with hj | hj
        · subst hj
          exact hhead
        · exact ih c j (List.mem_cons_of_mem _ hj)
    · have hb : betterIdx now keys i c = i := by simp [betterIdx, hlt]
      rw [hb]
      have hhead := ih i i (List.mem_cons_self i is)
      have hic : compareKeys now (keyAt keys i) (keyAt keys c) ≤ 0 := by
        have hsw := compareKeys_antisymm now (keyAt keys c) (keyAt keys i)
        omega
      rcases List.mem_cons.mp hj with hj | hj
      · subst hj
        exact hhead
      · rcases List.mem_cons.mp hj with hj | hj
        · subst hj
          exact compareKeys_trans_le now _ _ _ hhead hic
        · exact ih i j (List.mem_cons_of_mem _ hj)

/-! ### Characterisation of the selection -/

theorem nth_some_lt {α : Type} {l : List α} {i : Nat} {a : α}
    (h : nth l i = some a) : i < l.length := by
  by_contra hge
  rw [nth_length_le (by omega)] at h
  exact Option.noConfusion h

theorem keyAt_eq_of_nth {keys : List GoogleAIKey} {i : Nat} {k : GoogleAIKey}
    (h : nth keys i = some k) : keyAt keys i = k := by
  simp [keyAt, h]

theorem isEligible_iff {fam : GoogleAIModelFamily} {k : GoogleAIKey} :
    isEligible fam k = true ↔ k.isDisabled = false ∧ fam ∈ k.modelFamilies := by
  simp [isEligible, List.contains]

theorem mem_eligIdxs {fam : GoogleAIModelFamily} {keys : List GoogleAIKey}
    {i : Nat} :
    i ∈ eligIdxs fam keys ↔
      i < keys.length ∧ isEligible fam (keyAt keys i) = true := by
  simp [eligIdxs, List.mem_filter, List.mem_range]

theorem eligIdxs_eq_nil_iff {fam : GoogleAIModelFamily}
    {keys : List GoogleAIKey} :
    eligIdxs fam keys = [] ↔ ∀ k ∈ keys, isEligible fam k = false := by
  constructor
  · intro hnil k hk
    obtain ⟨i, hi⟩ := mem_nth hk
    by_contra hne
    have helig : isEligible fam (keyAt keys i) = true := by
      rw [keyAt_eq_of_nth hi]
      revert hne
      cases isEligible fam k <;> simp
    have : i ∈ eligIdxs fam keys :=
      mem_eligIdxs.mpr ⟨nth_some_lt hi, helig⟩
    rw [hnil] at this
    simp at this
  · intro hall
    by_contra hne
    cases he : eligIdxs fam keys with
    | nil => exact hne he
    | cons i is =>
      have hi : i ∈ eligIdxs fam keys := by rw [he]; simp
      obtain ⟨hlt, helig⟩ := mem_eligIdxs.mp hi
      obtain ⟨k, hk⟩ := nth_lt_length hlt
      rw [keyAt_eq_of_nth hk] at helig
      have := hall k (nth_mem hk)
      rw [this] at helig
      exact Bool.noConfusion helig

theorem bestIdx_eq_none_iff {fam : GoogleAIModelFamily} {now : Int}
    {keys : List GoogleAIKey} :
    bestIdx fam now keys = none ↔ eligIdxs fam keys = [] := by
  unfold bestIdx
  cases eligIdxs fam keys <;> simp

theorem bestIdx_mem {fam : GoogleAIModelFamily} {now : Int}
    {keys : List GoogleAIKey} {i : Nat} (h : bestIdx fam now keys = some i) :
    i ∈ eligIdxs fam keys := by
  unfold bestIdx at h
  cases he : eligIdxs fam keys with
  | nil => rw [he] at h; exact Option.noConfusion h
  | cons a as =>
    rw [he] at h
    simp at h
    rw [← h]
    exact foldl_better_mem now keys a as

theorem bestIdx_min {fam : GoogleAIModelFamily} {now : Int}
    {keys : List GoogleAIKey} {i : Nat} (h : bestIdx fam now keys = some i) :
    ∀ j ∈ eligIdxs fam keys,
      compareKeys now (keyAt keys i) (keyAt keys j) ≤ 0 := by
  unfold bestIdx at h
  cases he : eligIdxs fam keys with
  | nil => rw [he] at h; exact Option.noConfusion h
  | cons a as =>
    rw [he] at h
    simp at h
    rw [← h]
    exact foldl_better_min now keys a as

theorem getStep_none_iff {fam : GoogleAIModelFamily} {now : Int}
    {keys : List GoogleAIKey} :
    getStep fam now keys = none ↔ bestIdx fam now keys = none := by
  unfold getStep
  cases bestIdx fam now keys <;> simp

theorem getStep_some_elim {fam : GoogleAIModelFamily} {now : Int}
    {keys : List GoogleAIKey} {k : GoogleAIKey} {keys' : List GoogleAIKey}
    (h : getStep fam now keys = some (k, keys')) :
    ∃ i, bestIdx fam now keys = some i ∧
      keys' = updateFirst (fun x => x.hash == (keyAt keys i).hash)
        (throttleKey now) (keys.set i { keyAt keys i with lastUsed := now }) ∧
      k = keyAt keys' i := by
  unfold getStep at h
  cases hb : bestIdx fam now keys with
  | none => rw [hb] at h; exact Option.noConfusion h
  | some i =>
    rw [hb] at h
    simp only [Option.some.injEq, Prod.mk.injEq] at h
    refine ⟨i, rfl, h.2.symm, ?_⟩
    rw [← h.2]
    exact h.1.symm

/-- The record at the selected position after `get`'s mutations is the
selected record with `lastUsed` freshened, possibly also throttled. -/
theorem getStep_keyAt_cases {fam : GoogleAIModelFamily} {now : Int}
    {keys : List GoogleAIKey} {k : GoogleAIKey} {keys' : List GoogleAIKey}
    (h : getStep fam now keys = some (k, keys')) :
    ∃ i, bestIdx fam now keys = some i ∧ i < keys.length ∧
      (k = { keyAt keys i with lastUsed := now } ∨
       k = throttleKey now { keyAt keys i with lastUsed := now }) := by
  obtain ⟨i, hb, hkeys', hk⟩ := getStep_some_elim h
  have hlt : i < keys.length := (mem_eligIdxs.mp (bestIdx_mem hb)).1
  refine ⟨i, hb, hlt, ?_⟩
  have hset : nth (keys.set i { keyAt keys i with lastUsed := now }) i =
      some { keyAt keys i with lastUsed := now } := nth_set_self hlt
  rcases (nth_updateFirst
      (p := fun x => x.hash == (keyAt keys i).hash) (f := throttleKey now)
      (l := keys.set i { keyAt keys i with lastUsed := now }) (n := i)) with
    hsame | ⟨x, hx, hfx⟩
  · left
    have hnth : nth keys' i = some { keyAt keys i with lastUsed := now } := by
      rw [hkeys', hsame]
      exact hset
    rw [hk, keyAt_eq_of_nth hnth]
  · right
    rw [hset] at hx
    have hxx : x = { keyAt keys i with lastUsed := now } := (Option.some.inj hx).symm
    have hnth : nth keys' i =
        some (throttleKey now { keyAt keys i with lastUsed := now }) := by
      rw [hkeys', hfx, hxx]
    rw [hk, keyAt_eq_of_nth hnth]

theorem keyAt_mem {keys : List GoogleAIKey} {i : Nat} (h : i < keys.length) :
    keyAt keys i ∈ keys := by
  obtain ⟨a, ha⟩ := nth_lt_length h
  rw [keyAt_eq_of_nth ha]
  exact nth_mem ha

/-- Claim C1: `GoogleAIKeyProvider.get(model)` — embedded as `getStep` with
`fam` the model's family — never returns a disabled key nor a key whose
`modelFamilies` lacks the needed family, and it fails (the thrown 402-style
`PaymentRequiredError`, the spec's NoKeysAvailable, modelled by `none`)
exactly when no non-disabled key supports that family. -/
theorem googleai_get_eligibility :
    (∀ (fam : GoogleAIModelFamily) (now : Int) (keys : List GoogleAIKey),
      getStep fam now keys = none ↔
        ∀ k ∈ keys, k.isDisabled = true ∨ fam ∉ k.modelFamilies) ∧
    (∀ (fam : GoogleAIModelFamily) (now : Int) (keys : List GoogleAIKey)
        (k : GoogleAIKey) (keys' : List GoogleAIKey),
      getStep fam now keys = some (k, keys') →
        k.isDisabled = false ∧ fam ∈ k.modelFamilies) := by
  constructor
  · intro fam now keys
    rw [getStep_none_iff, bestIdx_eq_none_iff, eligIdxs_eq_nil_iff]
    constructor
    · intro h k hk
      have hff := h k hk
      by_cases hd : k.isDisabled
      · exact Or.inl hd
      · right
        intro hmem
        have ht : isEligible fam k = true :=
          isEligible_iff.mpr ⟨by simpa using hd, hmem⟩
        rw [ht] at hff
        exact Bool.noConfusion hff
    · intro h k hk
      rcases h k hk with hd | hnm
      · cases he : isEligible fam k
        · rfl
        · obtain ⟨hdf, -⟩ := isEligible_iff.mp he
          rw [hd] at hdf
          exact Bool.noConfusion hdf
      · cases he : isEligible fam k
        · rfl
        · obtain ⟨-, hm⟩ := isEligible_iff.mp he
          exact absurd hm hnm
  · intro fam now keys k keys' h
    obtain ⟨i, hb, hlt, hcase⟩ := getStep_keyAt_cases h
    obtain ⟨-, helig⟩ := mem_eligIdxs.mp (bestIdx_mem hb)
    obtain ⟨hd, hm⟩ := isEligible_iff.mp helig
    rcases hcase with hk | hk <;> subst hk <;>
      exact ⟨hd, hm⟩

/-- Claim C2: the selection order of `GoogleAIKeyProvider.get`.  The
comparator ranks a non-locked-out key (`now - rateLimitedAt` is at least
`RATE_LIMIT_LOCKOUT`, which is 2000 ms) above a locked-out one; between two
locked-out keys the earlier `rateLimitedAt` ranks higher; otherwise the
smaller `lastUsed` ranks higher; and `get` returns a key ranking highest
(comparator-minimal) among the eligible keys. -/
theorem googleai_selection_policy :
    RATE_LIMIT_LOCKOUT = 2000 ∧
    (∀ (now : Int) (a b : GoogleAIKey),
      (RATE_LIMIT_LOCKOUT ≤ now - a.rateLimitedAt →
        now - b.rateLimitedAt < RATE_LIMIT_LOCKOUT → compareKeys now a b < 0) ∧
      (now - a.rateLimitedAt < RATE_LIMIT_LOCKOUT →
        now - b.rateLimitedAt < RATE_LIMIT_LOCKOUT →
        (compareKeys now a b < 0 ↔ a.rateLimitedAt < b.rateLimitedAt)) ∧
      (RATE_LIMIT_LOCKOUT ≤ now - a.rateLimitedAt →
        RATE_LIMIT_LOCKOUT ≤ now - b.rateLimitedAt →
        (compareKeys now a b < 0 ↔ a.lastUsed < b.lastUsed))) ∧
    (∀ (fam : GoogleAIModelFamily) (now : Int) (keys : List GoogleAIKey)
        (k : GoogleAIKey) (keys' : List GoogleAIKey),
      getStep fam now keys = some (k, keys') →
        ∃ i, i < keys.length ∧ isEligible fam (keyAt keys i) = true ∧
          k.hash = (keyAt keys i).hash ∧ k.key = (keyAt keys i).key ∧
          ∀ j, j < keys.length → isEligible fam (keyAt keys j) = true →
            compareKeys now (keyAt keys i) (keyAt keys j) ≤ 0) := by
  refine ⟨rfl, ?_, ?_⟩
  · intro now a b
    refine ⟨?_, ?_, ?_⟩ <;>
      · intro h1 h2
        rw [compareKeys_eval]
        split_ifs <;> omega
  · intro fam now keys k keys' h
    obtain ⟨i, hb, hlt, hcase⟩ := getStep_keyAt_cases h
    obtain ⟨-, helig⟩ := mem_eligIdxs.mp (bestIdx_mem hb)
    refine ⟨i, hlt, helig, ?_, ?_, ?_⟩
    · rcases hcase with hk | hk <;> subst hk <;> rfl
    · rcases hcase with hk | hk <;> subst hk <;> rfl
    · intro j hj heligj
      exact bestIdx_min hb j (mem_eligIdxs.mpr ⟨hj, heligj⟩)

/-! ### The rate-limit window invariant (spec invariant I2) -/

/-- Invariant (I2): every record's lockout window is well-formed. -/
def rlInvariant (keys : List GoogleAIKey) : Prop :=
  ∀ k ∈ keys, k.rateLimitedAt ≤ k.rateLimitedUntil

theorem rlInvariant_updateFirst {p : GoogleAIKey → Bool}
    {f : GoogleAIKey → GoogleAIKey} {keys : List GoogleAIKey}
    (hf : ∀ k, k.rateLimitedAt ≤ k.rateLimitedUntil →
      (f k).rateLimitedAt ≤ (f k).rateLimitedUntil)
    (h : rlInvariant keys) : rlInvariant (updateFirst p f keys) := by
  intro k hk
  rcases mem_updateFirst hk with hk' | ⟨x, hx, hfx⟩
  · exact h k hk'
  · rw [hfx]
    exact hf x (h x hx)

/-- Claim C6: `rateLimitedUntil ≥ rateLimitedAt` holds for every key record
after construction and is preserved by every provider operation (`get`,
`markRateLimited`, `update`, `disable`, `incrementUsage`); no clock
assumption is even needed. -/
theorem googleai_rl_window_invariant :
    (∀ (hashFn : String → String) (cfg : Option String),
      rlInvariant (mkGoogleAIKeys hashFn cfg)) ∧
    (∀ (fam : GoogleAIModelFamily) (now : Int) (keys : List GoogleAIKey)
        (k : GoogleAIKey) (keys' : List GoogleAIKey),
      rlInvariant keys → getStep fam now keys = some (k, keys') →
        rlInvariant keys') ∧
    (∀ (now : Int) (h : String) (keys : List GoogleAIKey),
      rlInvariant keys → rlInvariant (markRateLimited now h keys)) ∧
    (∀ (now : Int) (h : String) (u : GoogleAIKeyUpdate)
        (keys : List GoogleAIKey),
      rlInvariant keys → rlInvariant (updateKey now h u keys)) ∧
    (∀ (h : String) (keys : List GoogleAIKey),
      rlInvariant keys → rlInvariant (disableKey h keys)) ∧
    (∀ (h : String) (fam : GoogleAIModelFamily) (t : Int)
        (keys : List GoogleAIKey),
      rlInvariant keys → rlInvariant (incrementUsage h fam t keys)) := by
  refine ⟨?_, ?_, ?_, ?_, ?_, ?_⟩
  · intro hashFn cfg k hk
    unfold mkGoogleAIKeys at hk
    rcases cfg with - | cfg
    · simp at hk
    · by_cases he : jsTrim cfg = ""
      · simp [he] at hk
      · simp only [he, if_false] at hk
        obtain ⟨s, -, hs⟩ := List.mem_map.mp hk
        rw [← hs]
        exact le_refl 0
  · intro fam now keys k keys' hinv h
    obtain ⟨i, hb, hkeys', -⟩ := getStep_some_elim h
    have hlt : i < keys.length := (mem_eligIdxs.mp (bestIdx_mem hb)).1
    rw [hkeys']
    apply rlInvariant_updateFirst
    · intro x hx
      simp only [throttleKey, KEY_REUSE_DELAY]
      have : x.rateLimitedUntil ≤ max x.rateLimitedUntil (now + 500) :=
        le_max_left _ _
      have h2 : now + 500 ≤ max x.rateLimitedUntil (now + 500) :=
        le_max_right _ _
      omega
    · intro x hx
      rcases List.mem_or_eq_of_mem_set hx with hx' | hx'
      · exact hinv x hx'
      · rw [hx']
        exact hinv (keyAt keys i) (keyAt_mem hlt)
  · intro now h keys hinv
    apply rlInvariant_updateFirst _ hinv
    intro k hk
    simp only [RATE_LIMIT_LOCKOUT]
    omega
  · intro now h u keys hinv
    apply rlInvariant_updateFirst _ hinv
    intro k hk
    simpa [applyKeyUpdate] using hk
  · intro h keys hinv
    apply rlInvariant_updateFirst _ hinv
    intro k hk
    simpa using hk
  · intro h fam t keys hinv
    apply rlInvariant_updateFirst _ hinv
    intro k hk
    cases fam <;> simpa [addFamTokens] using hk

/-- Claim C5: immediately after `get` returns a key `k` at time `now`, the
stored record for `k` has `lastUsed = now` and
`rateLimitedUntil = max(previous rateLimitedUntil, now + KEY_REUSE_DELAY)`
(the `throttle` also stamps `rateLimitedAt = now`), with
`KEY_REUSE_DELAY = 500` ms.  Stated under the provider invariant (I1) that
key hashes are unique, which makes "the stored record for `k`"
well-defined. -/
theorem googleai_get_updates_stored_key
    (fam : GoogleAIModelFamily) (now : Int) (keys : List GoogleAIKey)
    (k : GoogleAIKey) (keys' : List GoogleAIKey)
    (hnodup : (keys.map (fun x => x.hash)).Nodup)
    (hget : getStep fam now keys = some (k, keys')) :
    KEY_REUSE_DELAY = 500 ∧
    ∃ sel, sel ∈ keys ∧ sel.hash = k.hash ∧
      k = { sel with
            lastUsed := now
            rateLimitedAt := now
            rateLimitedUntil :=
              max sel.rateLimitedUntil (now + KEY_REUSE_DELAY) } ∧
      keys'.find? (fun r => r.hash == k.hash) = some k := by
  obtain ⟨i, hb, hkeys', hk⟩ := getStep_some_elim hget
  have hlt : i < keys.length := (mem_eligIdxs.mp (bestIdx_mem hb)).1
  have hsome : nth keys i = some (keyAt keys i) := by
    obtain ⟨a, ha⟩ := nth_lt_length hlt
    rw [keyAt_eq_of_nth ha]
    exact ha
  have hnth1 : nth (keys.set i { keyAt keys i with lastUsed := now }) i =
      some { keyAt keys i with lastUsed := now } := nth_set_self hlt
  have hfirst : ∀ j y, j < i →
      nth (keys.set i { keyAt keys i with lastUsed := now }) j = some y →
      (y.hash == (keyAt keys i).hash) = false := by
    intro j y hj hy
    rw [nth_set_ne (show j ≠ i by omega)] at hy
    have hmapj : nth (keys.map (fun x => x.hash)) j = some y.hash := by
      rw [nth_map, hy]
      rfl
    have hmapi : nth (keys.map (fun x => x.hash)) i =
        some (keyAt keys i).hash := by
      rw [nth_map, hsome]
      rfl
    have hne := nodup_nth_ne hnodup (show j ≠ i by omega) hmapj hmapi
    simpa using hne
  have hupd : updateFirst (fun x => x.hash == (keyAt keys i).hash)
        (throttleKey now)
        (keys.set i { keyAt keys i with lastUsed := now }) =
      (keys.set i { keyAt keys i with lastUsed := now }).set i
        (throttleKey now { keyAt keys i with lastUsed := now }) :=
    updateFirst_eq_set hnth1 (by simp) hfirst
  have hkeys2 : keys' =
      keys.set i (throttleKey now { keyAt keys i with lastUsed := now }) := by
    rw [hkeys', hupd, set_set_same]
  have hnth2 : nth keys' i =
      some (throttleKey now { keyAt keys i with lastUsed := now }) := by
    rw [hkeys2]
    exact nth_set_self hlt
  have hkval : k = throttleKey now { keyAt keys i with lastUsed := now } := by
    rw [hk, keyAt_eq_of_nth hnth2]
  refine ⟨rfl, keyAt keys i, keyAt_mem hlt, ?_, ?_, ?_⟩
  · rw [hkval]
    rfl
  · rw [hkval]
    rfl
  rw [hkeys2]
  apply find?_at_first (i := i)
  · rw [← hkval] at *
    exact nth_set_self hlt
  · simp
  · intro j y hj hy
    rw [nth_set_ne (show j ≠ i by omega)] at hy
    have hyy : nth (keys.set i { keyAt keys i with lastUsed := now }) j =
        some y := by
      rw [nth_set_ne (show j ≠ i by omega)]
      exact hy
    have := hfirst j y hj hyy
    rw [hkval]
    simpa using this

/-! ### Lockout period (claim C4) -/

theorem length_filter_lt {α : Type} {p : α → Bool} {l : List α}
    (h : ∃ x ∈ l, p x = false) : (l.filter p).length < l.length := by
  induction l with
  | nil => simp at h
  | cons a l ih =>
    obtain ⟨x, hx, hpx⟩ := h
    rcases List.mem_cons.mp hx with rfl | hx'
    · rw [List.filter_cons, hpx]
      simp only [List.length_cons]
      exact Nat.lt_succ_of_le (List.length_filter_le _ _)
    · by_cases hpa : p a
      · rw [List.filter_cons, hpa]
        simp only [List.length_cons, if_true]
        have := ih ⟨x, hx', hpx⟩
        omega
      · rw [List.filter_cons]
        simp only [hpa, List.length_cons, if_false]
        exact Nat.lt_succ_of_le (List.length_filter_le _ _)

theorem foldl_min_mem_int (x : Int) (xs : List Int) :
    xs.foldl min x ∈ x :: xs := by
  induction xs generalizing x with
  | nil => simp
  | cons c xs ih =>
    simp only [List.foldl_cons]
    have h := ih (min x c)
    rcases List.mem_cons.mp h with h | h
    · rw [h]
      rcases min_choice x c with hm | hm <;> rw [hm] <;> simp
    · simp [h]

theorem foldl_min_le_int (x : Int) (xs : List Int) :
    ∀ y ∈ x :: xs, xs.foldl min x ≤ y := by
  induction xs generalizing x with
  | nil =>
    intro y hy
    simp at hy
    rw [hy]
    simp
  | cons c xs ih =>
    intro y hy
    simp only [List.foldl_cons]
    rcases List.mem_cons.mp hy with hy | hy
    · rw [hy]
      exact le_trans (ih (min x c) (min x c) (List.mem_cons_self _ _))
        (min_le_left _ _)
    · rcases List.mem_cons.mp hy with hy | hy
      · rw [hy]
        exact le_trans (ih (min x c) (min x c) (List.mem_cons_self _ _))
          (min_le_right _ _)
      · exact ih (min x c) y (List.mem_cons_of_mem _ hy)

/-- The lockout period as Claim C4 words it (the refinement target the code
is compared against): over the *eligible* keys — non-disabled and supporting
the requested family — return 0 when one is usable now, else the minimum of
`rateLimitedUntil - now` (`none` when no key is eligible). -/
def getLockoutPeriodSpec (fam : GoogleAIModelFamily) (now : Int)
    (keys : List GoogleAIKey) : Option Int :=
  let eligible := keys.filter (isEligible fam)
  if eligible.any (fun k => decide (k.rateLimitedUntil ≤ now)) then some 0
  else (eligible.map (fun k => k.rateLimitedUntil - now)).min?

/-- A non-disabled gemini-pro key locked out for 5000 more ms. -/
def exLockKeyA : GoogleAIKey :=
  { (default : GoogleAIKey) with
    key := "a"
    hash := "plm-la"
    modelFamilies := [GoogleAIModelFamily.geminiPro]
    rateLimitedUntil := 5000 }

/-- A non-disabled gemini-flash key usable immediately. -/
def exLockKeyB : GoogleAIKey :=
  { (default : GoogleAIKey) with
    key := "b"
    hash := "plm-lb"
    modelFamilies := [GoogleAIModelFamily.geminiFlash] }

/-- Claim C4 counterexample: `getLockoutPeriod` ignores the requested
family.  With a gemini-pro key locked out for 5000 ms and a gemini-flash key
usable now, a gemini-pro request should (per the claim) sleep 5000 ms, but
the code returns 0 because the flash-only key is usable. -/
theorem googleai_lockout_counterexample :
    getLockoutPeriod 0 [exLockKeyA, exLockKeyB] = 0 ∧
    getLockoutPeriodSpec GoogleAIModelFamily.geminiPro 0
      [exLockKeyA, exLockKeyB] = some 5000 ∧
    getLockoutPeriodSpec GoogleAIModelFamily.geminiPro 0
        [exLockKeyA, exLockKeyB] ≠
      some (getLockoutPeriod 0 [exLockKeyA, exLockKeyB]) := by
  refine ⟨by decide, by decide, by decide⟩

/-- Claim C4 (amended): `getLockoutPeriod` ignores the requested model; its
active set is every non-disabled key regardless of family.  It returns 0
when there is no active key, or when some active key is usable now
(`rateLimitedUntil ≤ now`); otherwise it returns the minimum of
`rateLimitedUntil - now` over the active keys. -/
theorem googleai_lockout_amended (now : Int) (keys : List GoogleAIKey) :
    ((∀ k ∈ keys, k.isDisabled = true) → getLockoutPeriod now keys = 0) ∧
    ((∃ k ∈ keys, k.isDisabled = false ∧ k.rateLimitedUntil ≤ now) →
      getLockoutPeriod now keys = 0) ∧
    ((∃ k ∈ keys, k.isDisabled = false) →
      (∀ k ∈ keys, k.isDisabled = false → now < k.rateLimitedUntil) →
      (∃ k ∈ keys, k.isDisabled = false ∧
        getLockoutPeriod now keys = k.rateLimitedUntil - now) ∧
      (∀ k ∈ keys, k.isDisabled = false →
        getLockoutPeriod now keys ≤ k.rateLimitedUntil - now)) := by
  refine ⟨?_, ?_, ?_⟩
  · intro hall
    have hnil : keys.filter (fun k => !k.isDisabled) = [] := by
      rw [List.filter_eq_nil]
      intro k hk
      simp [hall k hk]
    simp [getLockoutPeriod, hnil]
  · intro ⟨k, hk, hkd, hku⟩
    have hmem : k ∈ keys.filter (fun k => !k.isDisabled) :=
      List.mem_filter.mpr ⟨hk, by simp [hkd]⟩
    have hlen : (keys.filter (fun k => !k.isDisabled)).length ≠ 0 := by
      intro h0
      rw [List.length_eq_zero.mp h0] at hmem
      simp at hmem
    have hflt : ((keys.filter (fun k => !k.isDisabled)).filter
          (fun k => decide (now < k.rateLimitedUntil))).length <
        (keys.filter (fun k => !k.isDisabled)).length :=
      length_filter_lt ⟨k, hmem, by simp; omega⟩
    simp only [getLockoutPeriod]
    rw [if_neg hlen, if_pos hflt]
  · intro ⟨k, hk, hkd⟩ hall
    have hmem : k ∈ keys.filter (fun k => !k.isDisabled) :=
      List.mem_filter.mpr ⟨hk, by simp [hkd]⟩
    have hlen : (keys.filter (fun k => !k.isDisabled)).length ≠ 0 := by
      intro h0
      rw [List.length_eq_zero.mp h0] at hmem
      simp at hmem
    have hself : (keys.filter (fun k => !k.isDisabled)).filter
          (fun k => decide (now < k.rateLimitedUntil)) =
        keys.filter (fun k => !k.isDisabled) := by
      rw [List.filter_eq_self]
      intro x hx
      obtain ⟨hx1, hx2⟩ := List.mem_filter.mp hx
      simp
      exact hall x hx1 (by simpa using hx2)
    have hnlt : ¬ (((keys.filter (fun k => !k.isDisabled)).filter
          (fun k => decide (now < k.rateLimitedUntil))).length <
        (keys.filter (fun k => !k.isDisabled)).length) := by
      rw [hself]
      omega
    cases hA : keys.filter (fun k => !k.isDisabled) with
    | nil => simp [hA] at hmem
    | cons a as =>
      have hres : getLockoutPeriod now keys =
          (as.map (fun k => k.rateLimitedUntil - now)).foldl min
            (a.rateLimitedUntil - now) := by
        simp only [getLockoutPeriod]
        rw [if_neg hlen, if_neg hnlt, hA]
        simp
      constructor
      · have hmm := foldl_min_mem_int (a.rateLimitedUntil - now)
          (as.map (fun k => k.rateLimitedUntil - now))
        have hmm' : (as.map (fun k => k.rateLimitedUntil - now)).foldl min
            (a.rateLimitedUntil - now) ∈
            (a :: as).map (fun k => k.rateLimitedUntil - now) := by
          simpa using hmm
        obtain ⟨x, hx, hxv⟩ := List.mem_map.mp hmm'
        have hxk : x ∈ keys.filter (fun k => !k.isDisabled) := by
          rw [hA]
          exact hx
        obtain ⟨hx1, hx2⟩ := List.mem_filter.mp hxk
        exact ⟨x, hx1, by simpa using hx2, by rw [hres, hxv]⟩
      · intro k2 hk2 hk2d
        have hk2m : k2 ∈ a :: as := by
          rw [← hA]
          exact List.mem_filter.mpr ⟨hk2, by simp [hk2d]⟩
        rw [hres]
        exact foldl_min_le_int _ _ (k2.rateLimitedUntil - now)
          (by simpa using List.mem_map_of_mem (fun k => k.rateLimitedUntil - now) hk2m)

/-! ## Key pool routing (src/unnamed/part_000, `KeyPool`) — claim C3 -/

/-- Upstream service tags. -/
inductive AIService : Type
  | openai
  | anthropic
  | googleAI
  deriving DecidableEq, Repr

/-- `KeyPool.getService`: prefix-match the model name; `none` models the
thrown `Unknown service for model` error.  Note the openai prefix is
`"gpt"` (no dash) and there is no gemini branch. -/
def getService (model : String) : Option AIService :=
  if jsStartsWith model "gpt" then some AIService.openai
  else if jsStartsWith model "claude-" then some AIService.anthropic
  else none

/-- The two providers the `KeyPool` constructor registers (openai and
anthropic; no google-ai provider is registered), each exposing its
`get`. -/
structure PoolProviders (K : Type) : Type where
  openaiGet : String → Option K
  anthropicGet : String → Option K

/-- `KeyPool.get(model)`: infer the service from the model name and
delegate to that provider's `get`. -/
def keyPoolGet {K : Type} (p : PoolProviders K) (model : String) : Option K :=
  match getService model with
  | some AIService.openai => p.openaiGet model
  | some AIService.anthropic => p.anthropicGet model
  | some AIService.googleAI => none
  | none => none

/-- Providers used in concrete routing examples. -/
def exPoolProviders : PoolProviders Unit :=
  { openaiGet := fun _ => some (), anthropicGet := fun _ => some () }

/-- Claim C3 counterexample: a `gemini-*` model is not routed to a
google-ai provider — `KeyPool.getService` has no gemini branch and throws
(`none`), so `KeyPool.get` fails for `"gemini-pro"`. -/
theorem keypool_gemini_not_routed :
    getService "gemini-pro" = none ∧
    getService "gemini-pro" ≠ some AIService.googleAI ∧
    keyPoolGet exPoolProviders "gemini-pro" = none := by
  refine ⟨by decide, by decide, by decide⟩

/-- Claim C3 (amended): `KeyPool.get(model)` infers the service by prefix —
a model starting with `gpt` (hence every `gpt-*` model) delegates to the
openai provider's `get`, a model starting with `claude-` to the anthropic
provider's `get`, and any other model (including `gemini-*`) raises an
Unknown-service error instead of being routed. -/
theorem keypool_get_routing {K : Type} (p : PoolProviders K) (model : String) :
    (jsStartsWith model "gpt" = true →
      keyPoolGet p model = p.openaiGet model) ∧
    (jsStartsWith model "gpt" = false → jsStartsWith model "claude-" = true →
      keyPoolGet p model = p.anthropicGet model) ∧
    (jsStartsWith model "gpt" = false → jsStartsWith model "claude-" = false →
      keyPoolGet p model = none) := by
  refine ⟨?_, ?_, ?_⟩
  · intro h
    simp [keyPoolGet, getService, h]
  · intro h1 h2
    simp [keyPoolGet, getService, h1, h2]
  · intro h1 h2
    simp [keyPoolGet, getService, h1, h2]

/-! ## Anthropic router (src/unnamed/part_001) — claims C7, C8, C10 -/

/-- Request/response dialects (`inboundApi` / `outboundApi` values used by
the Anthropic router). -/
inductive Api : Type
  | openai
  | anthropicText
  | anthropicChat
  deriving DecidableEq, Repr

/-- `claudeTextCompletionRouter`: the dialect pair assigned to a
`POST /v1/complete` request, keyed on `req.body.model?.startsWith("claude-3")`
(`none` models an absent model field, which takes the native-text branch). -/
def claudeTextCompletionRouterApis (model : Option String) : Api × Api :=
  match model with
  | some m =>
    if jsStartsWith m "claude-3" then (Api.anthropicText, Api.anthropicChat)
    else (Api.anthropicText, Api.anthropicText)
  | none => (Api.anthropicText, Api.anthropicText)

/-- The `pathFilter` of `anthropicProxy`, which rewrites `req.url` from the
outbound dialect. -/
def anthropicPathRewrite (outApi : Api) (pathname : String) : String :=
  if outApi = Api.anthropicChat ∧ pathname = "/v1/complete" then "/v1/messages"
  else if outApi = Api.anthropicText ∧ pathname = "/v1/chat/completions" then
    "/v1/complete"
  else if outApi = Api.anthropicChat ∧ pathname = "/v1/claude-3/complete" then
    "/v1/messages"
  else pathname

/-- The `POST /v1/complete` endpoint: dialect assignment by
`claudeTextCompletionRouter` followed by the proxy's path rewrite.  Returns
(inbound dialect, outbound dialect, upstream path). -/
def completeEndpointRoute (model : Option String) : Api × Api × String :=
  let apis := claudeTextCompletionRouterApis model
  (apis.1, apis.2, anthropicPathRewrite apis.2 "/v1/complete")

/-- Claim C8: a `/v1/complete` request for a `claude-3*` model is
preprocessed as `anthropic-text` inbound / `anthropic-chat` outbound and its
upstream path is rewritten to `/v1/messages`; any other model keeps
`anthropic-text` outbound and path `/v1/complete`. -/
theorem claude3_complete_routing (m : String) :
    (jsStartsWith m "claude-3" = true →
      completeEndpointRoute (some m) =
        (Api.anthropicText, Api.anthropicChat, "/v1/messages")) ∧
    (jsStartsWith m "claude-3" = false →
      completeEndpointRoute (some m) =
        (Api.anthropicText, Api.anthropicText, "/v1/complete")) := by
  constructor
  · intro h
    simp [completeEndpointRoute, claudeTextCompletionRouterApis, h,
      anthropicPathRewrite]
  · intro h
    simp [completeEndpointRoute, claudeTextCompletionRouterApis, h,
      anthropicPathRewrite]

/-- A chat-completions request body as the router sees it: a model plus the
other fields, which the model-reassignment step never touches. -/
structure ChatRequestBody : Type where
  model : String
  otherFields : List (String × String)
  deriving DecidableEq, Repr

/-- `maybeReassignModel` (the `afterTransform` step of the Anthropic
router's `/v1/chat/completions` OpenAI-compatibility endpoint). -/
def maybeReassignModel (b : ChatRequestBody) : ChatRequestBody :=
  if jsStartsWith b.model "gpt-" then { b with model := "claude-2.1" } else b

/-- The `/v1/chat/completions` preprocessor of the Anthropic router:
dialect translation (`translate`, the openai → anthropic-text body mapping,
kept abstract) followed by the `afterTransform` hook `maybeReassignModel`. -/
def anthropicChatCompletionsPreprocess
    (translate : ChatRequestBody → ChatRequestBody) (b : ChatRequestBody) :
    ChatRequestBody :=
  maybeReassignModel (translate b)

/-- Claim C10: on the Anthropic router's `POST /v1/chat/completions`
endpoint, after dialect transformation a request whose model starts with
`gpt-` has its model silently replaced with `claude-2.1` (other fields
untouched), and a request whose model does not start with `gpt-` is left
unchanged. -/
theorem anthropic_openai_compat_model_reassignment
    (translate : ChatRequestBody → ChatRequestBody) (b : ChatRequestBody) :
    (jsStartsWith (translate b).model "gpt-" = true →
      anthropicChatCompletionsPreprocess translate b =
        { translate b with model := "claude-2.1" }) ∧
    (jsStartsWith (translate b).model "gpt-" = false →
      anthropicChatCompletionsPreprocess translate b = translate b) := by
  constructor
  · intro h
    simp [anthropicChatCompletionsPreprocess, maybeReassignModel, h]
  · intro h
    simp [anthropicChatCompletionsPreprocess, maybeReassignModel, h]

/-! ### Non-streaming Anthropic-to-OpenAI response reshaping (claim C7) -/

/-- The upstream Anthropic text-completion response body (the fields the
handler reads).  `completion` is optional because the source guards it with
`?.`. -/
structure AnthropicTextResponse : Type where
  log_id : String
  model : String
  completion : Option String
  stop_reason : Option String
  deriving DecidableEq, Repr

structure OpenAIMessage : Type where
  role : String
  content : Option String
  deriving DecidableEq, Repr

structure OpenAIChoice : Type where
  message : OpenAIMessage
  finish_reason : Option String
  index : Nat
  deriving DecidableEq, Repr

structure OpenAIUsage : Type where
  prompt_tokens : Option Int
  completion_tokens : Option Int
  total_tokens : Int
  deriving DecidableEq, Repr

structure OpenAIChatResponse : Type where
  id : String
  object : String
  created : Int
  model : String
  usage : OpenAIUsage
  choices : List OpenAIChoice
  deriving DecidableEq, Repr

/-- `transformAnthropicTextResponseToOpenAI`.  `promptTokens` and
`outputTokens` are the request's token estimates (optional on the request
object, hence `Option`). -/
def transformAnthropicTextResponseToOpenAI (now : Int)
    (promptTokens outputTokens : Option Int) (b : AnthropicTextResponse) :
    OpenAIChatResponse :=
  { id := "ant-" ++ b.log_id
    object := "chat.completion"
    created := now
    model := b.model
    usage :=
      { prompt_tokens := promptTokens
        completion_tokens := outputTokens
        total_tokens := promptTokens.getD 0 + outputTokens.getD 0 }
    choices :=
      [{ message := { role := "assistant", content := b.completion.map jsTrim }
         finish_reason := b.stop_reason
         index := 0 }] }

/-- The body written to the client by `anthropicResponseHandler`. -/
inductive ClientBody : Type
  | anthropicText (b : AnthropicTextResponse)
  | openaiChat (b : OpenAIChatResponse)
  deriving DecidableEq, Repr

/-- `anthropicResponseHandler` restricted to upstream `anthropic-text`
bodies (outbound dialect `anthropic-text`, so the chat-to-text branch does
not apply; the prompt-logging note and tokenizer-info attachments, which do
not touch the fields claimed about, are omitted). -/
def anthropicTextUpstreamToClient (inApi : Api) (now : Int)
    (promptTokens outputTokens : Option Int) (body : AnthropicTextResponse) :
    ClientBody :=
  if inApi = Api.openai then
    ClientBody.openaiChat
      (transformAnthropicTextResponseToOpenAI now promptTokens outputTokens body)
  else ClientBody.anthropicText body

/-- An upstream completion with leading and trailing whitespace. -/
def exAnthropicBody : AnthropicTextResponse :=
  { log_id := "L1"
    model := "claude-2"
    completion := some " hi "
    stop_reason := some "stop_sequence" }

/-- Claim C7 counterexample: the handler trims the upstream `completion`
before placing it in `choices[0].message.content`, so for a completion with
surrounding whitespace the content sent to the openai-dialect client is not
equal to the upstream `completion` field. -/
theorem anthropic_to_openai_trims_content :
    anthropicTextUpstreamToClient Api.openai 0 (some 3) (some 4)
        exAnthropicBody =
      ClientBody.openaiChat
        (transformAnthropicTextResponseToOpenAI 0 (some 3) (some 4)
          exAnthropicBody) ∧
    (transformAnthropicTextResponseToOpenAI 0 (some 3) (some 4)
        exAnthropicBody).choices.map (fun c => c.message.content) =
      [some "hi"] ∧
    exAnthropicBody.completion = some " hi " ∧
    (some "hi" : Option String) ≠ exAnthropicBody.completion := by
  refine ⟨by decide, by decide, by decide, by decide⟩

/-- Claim C7 (amended): for a non-streaming Anthropic text response served
to a client whose inbound dialect is openai, the body written to the client
has `choices[0].message.content` equal to the **trimmed** upstream
`completion`, role `assistant`, `object = "chat.completion"`,
`finish_reason` from the upstream `stop_reason`, and a synthesised usage
block with `prompt_tokens` / `completion_tokens` from the request's token
estimates and `total_tokens` their sum (absent estimates counting as 0). -/
theorem anthropic_to_openai_reshape (now : Int) (pt ot : Option Int)
    (b : AnthropicTextResponse) :
    anthropicTextUpstreamToClient Api.openai now pt ot b =
      ClientBody.openaiChat
        (transformAnthropicTextResponseToOpenAI now pt ot b) ∧
    (transformAnthropicTextResponseToOpenAI now pt ot b).object =
      "chat.completion" ∧
    (transformAnthropicTextResponseToOpenAI now pt ot b).choices.map
        (fun c => (c.message.role, c.message.content, c.finish_reason)) =
      [("assistant", b.completion.map jsTrim, b.stop_reason)] ∧
    (transformAnthropicTextResponseToOpenAI now pt ot b).usage.prompt_tokens =
      pt ∧
    (transformAnthropicTextResponseToOpenAI now pt ot b).usage.completion_tokens =
      ot ∧
    (transformAnthropicTextResponseToOpenAI now pt ot b).usage.total_tokens =
      pt.getD 0 + ot.getD 0 := by
  refine ⟨rfl, rfl, rfl, rfl, rfl, rfl⟩

/-! ## Streaming transformer (src/unnamed/part_002) — claim C9

The transformer calls `JSON.parse`; we embed a JSON value type and parser.
Numbers are kept as exact rationals (the JavaScript float rounding of a
numeric literal is outside the embedding; every literal used by the claims
is small and integral, where the two agree). -/

/-- JSON values as produced by `JSON.parse`. -/
inductive Json : Type
  | null
  | bool (b : Bool)
  | num (q : Rat)
  | str (s : String)
  | arr (elems : List Json)
  | obj (fields : List (String × Json))

def isJsonWs (c : Char) : Bool :=
  c == ' ' || c == '\t' || c == '\n' || c == '\r'

def skipWs (cs : List Char) : List Char := cs.dropWhile isJsonWs

def hexVal (c : Char) : Option Nat :=
  if 48 ≤ c.toNat ∧ c.toNat ≤ 57 then some (c.toNat - 48)
  else if 97 ≤ c.toNat ∧ c.toNat ≤ 102 then some (c.toNat - 87)
  else if 65 ≤ c.toNat ∧ c.toNat ≤ 70 then some (c.toNat - 55)
  else none

/-- Parse a JSON string body after the opening quote, with escapes. -/
def parseStringBody : Nat → List Char → List Char → Option (String × List Char)
  | 0, _, _ => none
  | _ + 1, [], _ => none
  | fuel + 1, c :: rest, acc =>
    if c == '"' then some (⟨acc.reverse⟩, rest)
    else if c == '\\' then
      match rest with
      | [] => none
      | e :: rest2 =>
        if e == '"' then parseStringBody fuel rest2 ('"' :: acc)
        else if e == '\\' then parseStringBody fuel rest2 ('\\' :: acc)
        else if e == '/' then parseStringBody fuel rest2 ('/' :: acc)
        else if e == 'b' then parseStringBody fuel rest2 ('\x08' :: acc)
        else if e == 'f' then parseStringBody fuel rest2 ('\x0c' :: acc)
        else if e == 'n' then parseStringBody fuel rest2 ('\n' :: acc)
        else if e == 'r' then parseStringBody fuel rest2 ('\r' :: acc)
        else if e == 't' then parseStringBody fuel rest2 ('\t' :: acc)
        else if e == 'u' then
          match rest2 with
          | h1 :: h2 :: h3 :: h4 :: rest3 =>
            match hexVal h1, hexVal h2, hexVal h3, hexVal h4 with
            | some a, some b, some c2, some d =>
              parseStringBody fuel rest3
                (Char.ofNat (((a * 16 + b) * 16 + c2) * 16 + d) :: acc)
            | _, _, _, _ => none
          | _ => none
        else none
    else parseStringBody fuel rest (c :: acc)

def takeDigits : List Char → List Char × List Char
  | [] => ([], [])
  | c :: rest =>
    if c.isDigit then
      let (ds, r) := takeDigits rest
      (c :: ds, r)
    else ([], c :: rest)

def digitsVal (ds : List Char) : Nat :=
  ds.foldl (fun n c => n * 10 + (c.toNat - 48)) 0

/-- Optional fraction part (`none` on a dot with no digits, a JSON error). -/
def parseFrac : List Char → Option (List Char × List Char)
  | '.' :: r =>
    let (ds, r2) := takeDigits r
    if ds.isEmpty then none else some (ds, r2)
  | cs => some ([], cs)

/-- Optional exponent part. -/
def parseExp : List Char → Option (Int × List Char)
  | [] => some (0, [])
  | c :: r =>
    if c == 'e' || c == 'E' then
      let (esign, r1) : Bool × List Char :=
        match r with
        | '+' :: r2 => (false, r2)
        | '-' :: r2 => (true, r2)
        | _ => (false, r)
      let (ds, r2) := takeDigits r1
      if ds.isEmpty then none
      else
        some ((if esign then -(digitsVal ds : Int) else (digitsVal ds : Int)), r2)
    else some (0, c :: r)

def ratOfParts (neg : Bool) (ip : Nat) (fds : List Char) (e : Int) : Rat :=
  let base : Rat := (ip : Rat) + (digitsVal fds : Rat) / ((10 : Rat) ^ fds.length)
  let scaled : Rat :=
    if 0 ≤ e then base * (10 : Rat) ^ e.toNat else base / (10 : Rat) ^ (-e).toNat
  if neg then -scaled else scaled

/-- Parse a JSON number literal (leading-zero rules as in JSON). -/
def parseNumber (cs : List Char) : Option (Rat × List Char) :=
  let signSplit : Bool × List Char :=
    match cs with
    | '-' :: r => (true, r)
    | _ => (false, cs)
  let neg := signSplit.1
  match signSplit.2 with
  | [] => none
  | c :: rest =>
    if c == '0' then
      if (match rest with | d :: _ => d.isDigit | [] => false) then none
      else
        match parseFrac rest with
        | none => none
        | some (fds, r2) =>
          match parseExp r2 with
          | none => none
          | some (e, r3) => some (ratOfParts neg 0 fds e, r3)
    else if c.isDigit then
      let intSplit := takeDigits (c :: rest)
      match parseFrac intSplit.2 with
      | none => none
      | some (fds, r2) =>
        match parseExp r2 with
        | none => none
        | some (e, r3) => some (ratOfParts neg (digitsVal intSplit.1) fds e, r3)
    else none

mutual

/-- Fuel-bounded recursive-descent JSON value parser. -/
def parseJsonV : Nat → List Char → Option (Json × List Char)
  | 0, _ => none
  | fuel + 1, cs =>
    match skipWs cs with
    | [] => none
    | c :: rest =>
      if c == '\x7b' then
        match skipWs rest with
        | '\x7d' :: r2 => some (Json.obj [], r2)
        | _ => parseObjFields fuel rest []
      else if c == '[' then
        match skipWs rest with
        | ']' :: r2 => some (Json.arr [], r2)
        | _ => parseArrElems fuel rest []
      else if c == '"' then
        match parseStringBody fuel rest [] with
        | some (s, r) => some (Json.str s, r)
        | none => none
      else if c == 't' then
        if charsStart "rue".data rest then some (Json.bool true, rest.drop 3)
        else none
      else if c == 'f' then
        if charsStart "alse".data rest then some (Json.bool false, rest.drop 4)
        else none
      else if c == 'n' then
        if charsStart "ull".data rest then some (Json.null, rest.drop 3)
        else none
      else
        match parseNumber (c :: rest) with
        | some (q, r) => some (Json.num q, r)
        | none => none

/-- Array elements after `[` (at least one element expected). -/
def parseArrElems : Nat → List Char → List Json → Option (Json × List Char)
  | 0, _, _ => none
  | fuel + 1, cs, acc =>
    match parseJsonV fuel cs with
    | none => none
    | some (v, r) =>
      match skipWs r with
      | ',' :: r2 => parseArrElems fuel r2 (v :: acc)
      | ']' :: r2 => some (Json.arr (v :: acc).reverse, r2)
      | _ => none

/-- Object members after the opening brace (at least one member expected). -/
def parseObjFields : Nat → List Char → List (String × Json) →
    Option (Json × List Char)
  | 0, _, _ => none
  | fuel + 1, cs, acc =>
    match skipWs cs with
    | '"' :: r =>
      match parseStringBody fuel r [] with
      | some (k, r1) =>
        match skipWs r1 with
        | ':' :: r2 =>
          match parseJsonV fuel r2 with
          | some (v, r3) =>
            match skipWs r3 with
            | ',' :: r4 => parseObjFields fuel r4 ((k, v) :: acc)
            | '\x7d' :: r4 => some (Json.obj ((k, v) :: acc).reverse, r4)
            | _ => none
          | none => none
        | _ => none
      | none => none
    | _ => none

end

/-- `JSON.parse`: the whole input must be one JSON value, with only
whitespace around it; `none` models the thrown `SyntaxError`. -/
def jsonParse (s : String) : Option Json :=
  match parseJsonV (s.length * 4 + 16) s.data with
  | some (j, rest) => if skipWs rest = [] then some j else none
  | none => none

/-- JS property read `j.name` on a parsed JSON value: the last binding wins
for duplicate keys (as in `JSON.parse`); `none` plays both `undefined` and
the property access that throws on a non-object receiver — every such path
in `asCompletionEvent` is caught and collapses to the same `null` result. -/
def jsField (j : Json) (name : String) : Option Json :=
  match j with
  | Json.obj fs =>
    fs.foldl (fun acc kv => if kv.1 == name then some kv.2 else acc) none
  | _ => none

/-- JS truthiness of a parsed JSON value. -/
def truthy : Json → Bool
  | Json.null => false
  | Json.bool b => b
  | Json.num q => !(decide (q = 0))
  | Json.str s => !(s == "")
  | Json.arr _ => true
  | Json.obj _ => true

/-- `asCompletionEvent`: `JSON.parse` the event, require `parsed.choices` to
be an array whose first element has a truthy `text`, else return null (the
try/catch swallows the parse error, the TypeError on `choices[0]` of an
empty array, and the thrown "Missing required fields"). -/
def asCompletionEvent (event : String) : Option Json :=
  match jsonParse event with
  | none => none
  | some parsed =>
    match jsField parsed "choices" with
    | some (Json.arr cs) =>
      match cs with
      | [] => none
      | c0 :: _ =>
        match jsField c0 "text" with
        | some t => if truthy t then some parsed else none
        | none => none
    | _ => none

/-- The `chat.completion.chunk` event built by the transformer (fields read
off the parsed event; absent fields are `undefined`, i.e. `none`). -/
structure ChatCompletionChunk : Type where
  id : Option Json
  object : String
  created : Option Json
  model : Option Json
  index : Option Json
  content : Option Json
  finish_reason : Option Json

/-- The new event object constructed by `openAITextToOpenAIChat` from a
recognised completion event. -/
def mkChunk (parsed : Json) : ChatCompletionChunk :=
  let c0 := match jsField parsed "choices" with
    | some (Json.arr (c :: _)) => c
    | _ => Json.null
  { id := jsField parsed "id"
    object := "chat.completion.chunk"
    created := jsField parsed "created"
    model := jsField parsed "model"
    index := jsField c0 "index"
    content := jsField c0 "text"
    finish_reason := jsField c0 "finish_reason" }

/-- Modelled from the spec: the SSE field parser `parseEvent` (module
`parse-sse`, imported by the transformer) is not included under `src/`.
Per spec §4.6 event-stream decoding parses the `data:` field of the event
text; following the SSE standard a field value drops one leading space, and
multiple data lines are joined with a newline.  `none` models an event with
no data field. -/
def parseEventData (eventText : String) : Option String :=
  let ls := splitOnChar '\n' eventText.data
  let ds := ls.filterMap (fun l =>
    if charsStart "data:".data l then
      let v := l.drop 5
      some (match v with
        | ' ' :: r => r
        | _ => v)
    else none)
  match ds with
  | [] => none
  | d :: rest => some ⟨rest.foldl (fun acc l => acc ++ '\n' :: l) d⟩

/-- The transformer's return value (`position` cursor plus an optional
output event). -/
structure TransformResult : Type where
  position : Int
  event : Option ChatCompletionChunk

/-- `openAITextToOpenAIChat`: skip events with no/empty data (JS falsiness)
or the `[DONE]` sentinel, skip unrecognised events, and reshape recognised
text-completion events into chat chunks. -/
def openAITextToOpenAIChat (data : String) : TransformResult :=
  match parseEventData data with
  | none => { position := -1, event := none }
  | some d =>
    if d = "" ∨ d = "[DONE]" then { position := -1, event := none }
    else
      match asCompletionEvent d with
      | none => { position := -1, event := none }
      | some parsed => { position := -1, event := some (mkChunk parsed) }

/-- A well-formed text-completion stream event. -/
def exStreamEventText : String :=
  "data: \x7b\"id\":\"c1\",\"object\":\"text_completion\",\"created\":1,\"model\":\"m\",\"choices\":[\x7b\"text\":\"hi\",\"index\":0,\"logprobs\":null,\"finish_reason\":null\x7d]\x7d"

set_option maxRecDepth 8000 in
/-- Claim C9: the streaming transformer `openAITextToOpenAIChat` is total —
for every input data string it returns a result (always with cursor
`position = -1`) rather than throwing, and it produces an output event only
for a recognised text-completion event (a data payload that is non-empty,
not the `[DONE]` sentinel, and accepted by `asCompletionEvent`), in which
case the event is the reshaped chunk.  Concrete instances: `[DONE]`,
malformed JSON and an event missing the required fields are skipped, while
a well-formed completion event produces an output event. -/
theorem openai_text_stream_transformer_total :
    (∀ data : String, (openAITextToOpenAIChat data).position = -1) ∧
    (∀ (data : String) (ev : ChatCompletionChunk),
      (openAITextToOpenAIChat data).event = some ev →
        ∃ d parsed, parseEventData data = some d ∧ d ≠ "" ∧ d ≠ "[DONE]" ∧
          asCompletionEvent d = some parsed ∧ ev = mkChunk parsed) ∧
    (openAITextToOpenAIChat "data: [DONE]").event = none ∧
    (openAITextToOpenAIChat "data: \x7bnot json").event = none ∧
    (openAITextToOpenAIChat "data: \x7b\"id\":\"x\"\x7d").event = none ∧
    (openAITextToOpenAIChat "").event = none ∧
    (openAITextToOpenAIChat exStreamEventText).event.isSome = true := by
  refine ⟨?_, ?_, by rfl, by rfl, by rfl, by rfl, by rfl⟩
  · intro data
    cases hp : parseEventData data with
    | none => simp [openAITextToOpenAIChat, hp]
    | some d =>
      by_cases hd : d = "" ∨ d = "[DONE]"
      · simp [openAITextToOpenAIChat, hp, hd]
      · simp only [openAITextToOpenAIChat, hp, if_neg hd]
        cases asCompletionEvent d <;> rfl
  · intro data ev h
    cases hp : parseEventData data with
    | none => simp [openAITextToOpenAIChat, hp] at h
    | some d =>
      by_cases hd : d = "" ∨ d = "[DONE]"
      · simp [openAITextToOpenAIChat, hp, hd] at h
      · simp only [openAITextToOpenAIChat, hp, if_neg hd] at h
        push_neg at hd
        cases hc : asCompletionEvent d with
        | none => simp [hc] at h
        | some parsed =>
          rw [hc] at h
          simp only [Option.some.injEq] at h
          exact ⟨d, parsed, rfl, hd.1, hd.2, hc, h.symm⟩

/-! ## Concrete witnesses -/

/-- A gemini-pro key last used at t=10. -/
def exKeyA : GoogleAIKey :=
  { (default : GoogleAIKey) with
    key := "ka"
    hash := "plm-a"
    lastUsed := 10
    modelFamilies := [GoogleAIModelFamily.geminiPro] }

/-- A gemini-pro key last used at t=5 (least recently used). -/
def exKeyB : GoogleAIKey :=
  { (default : GoogleAIKey) with
    key := "kb"
    hash := "plm-b"
    lastUsed := 5
    modelFamilies := [GoogleAIModelFamily.geminiPro] }

/-- `exKeyB` as stored after being selected by `get` at t=5000. -/
def exKeyBAfter : GoogleAIKey :=
  { exKeyB with lastUsed := 5000, rateLimitedAt := 5000,
                rateLimitedUntil := 5500 }

theorem googleai_get_eligibility_witness :
    exKeyBAfter.isDisabled = false ∧
      GoogleAIModelFamily.geminiPro ∈ exKeyBAfter.modelFamilies :=
  googleai_get_eligibility.2 GoogleAIModelFamily.geminiPro 5000
    [exKeyA, exKeyB] exKeyBAfter [exKeyA, exKeyBAfter] (by decide)

theorem googleai_selection_policy_witness :
    ∃ i, i < ([exKeyA, exKeyB] : List GoogleAIKey).length ∧
      isEligible GoogleAIModelFamily.geminiPro (keyAt [exKeyA, exKeyB] i) =
        true ∧
      exKeyBAfter.hash = (keyAt [exKeyA, exKeyB] i).hash ∧
      exKeyBAfter.key = (keyAt [exKeyA, exKeyB] i).key ∧
      ∀ j, j < ([exKeyA, exKeyB] : List GoogleAIKey).length →
        isEligible GoogleAIModelFamily.geminiPro (keyAt [exKeyA, exKeyB] j) =
          true →
        compareKeys 5000 (keyAt [exKeyA, exKeyB] i)
          (keyAt [exKeyA, exKeyB] j) ≤ 0 :=
  googleai_selection_policy.2.2 GoogleAIModelFamily.geminiPro 5000
    [exKeyA, exKeyB] exKeyBAfter [exKeyA, exKeyBAfter] (by decide)

theorem googleai_get_updates_stored_key_witness :
    KEY_REUSE_DELAY = 500 ∧
    ∃ sel, sel ∈ [exKeyA, exKeyB] ∧ sel.hash = exKeyBAfter.hash ∧
      exKeyBAfter = { sel with
        lastUsed := 5000
        rateLimitedAt := 5000
        rateLimitedUntil :=
          max sel.rateLimitedUntil (5000 + KEY_REUSE_DELAY) } ∧
      ([exKeyA, exKeyBAfter] : List GoogleAIKey).find?
        (fun r => r.hash == exKeyBAfter.hash) = some exKeyBAfter :=
  googleai_get_updates_stored_key GoogleAIModelFamily.geminiPro 5000
    [exKeyA, exKeyB] exKeyBAfter [exKeyA, exKeyBAfter] (by decide) (by decide)

theorem googleai_rl_window_invariant_witness :
    rlInvariant (markRateLimited 7 "plm-a" [exKeyA, exKeyB]) :=
  googleai_rl_window_invariant.2.2.1 7 "plm-a" [exKeyA, exKeyB]
    (by unfold rlInvariant; decide)

theorem googleai_lockout_amended_witness :
    getLockoutPeriod 0 [exLockKeyA, exLockKeyB] = 0 :=
  (googleai_lockout_amended 0 [exLockKeyA, exLockKeyB]).2.1 (by decide)

theorem keypool_get_routing_witness :
    keyPoolGet exPoolProviders "gpt-4" = exPoolProviders.openaiGet "gpt-4" ∧
    keyPoolGet exPoolProviders "claude-2.1" =
      exPoolProviders.anthropicGet "claude-2.1" :=
  ⟨(keypool_get_routing exPoolProviders "gpt-4").1 (by decide),
   (keypool_get_routing exPoolProviders "claude-2.1").2.1 (by decide)
     (by decide)⟩

theorem claude3_complete_routing_witness :
    completeEndpointRoute (some "claude-3-opus-20240229") =
      (Api.anthropicText, Api.anthropicChat, "/v1/messages") ∧
    completeEndpointRoute (some "claude-2.1") =
      (Api.anthropicText, Api.anthropicText, "/v1/complete") :=
  ⟨(claude3_complete_routing "claude-3-opus-20240229").1 (by decide),
   (claude3_complete_routing "claude-2.1").2 (by decide)⟩

/-- A chat request for a gpt model, as the reassignment step receives it. -/
def exChatBody : ChatRequestBody :=
  { model := "gpt-4", otherFields := [("stream", "false")] }

theorem anthropic_openai_compat_model_reassignment_witness :
    anthropicChatCompletionsPreprocess id exChatBody =
      { exChatBody with model := "claude-2.1" } :=
  (anthropic_openai_compat_model_reassignment id exChatBody).1 (by decide)

set_option maxRecDepth 8000 in
theorem openai_text_stream_transformer_total_witness :
    ∃ d parsed, parseEventData exStreamEventText = some d ∧ d ≠ "" ∧
      d ≠ "[DONE]" ∧ asCompletionEvent d = some parsed ∧
      (openAITextToOpenAIChat exStreamEventText).event.get (by rfl) =
        mkChunk parsed :=
  openai_text_stream_transformer_total.2.1 exStreamEventText
    ((openAITextToOpenAIChat exStreamEventText).event.get (by rfl))
    (Option.some_get (by rfl)).symm

end NightOfNights
